import Mathlib

/-!
Shallow embedding of btc_regime_detection.py (BTC market-regime detection
via a Gaussian HMM), covering the parts of the script that the verified
claims are about:

* the download-chunking loop that splits [start_date, end_date] into
  intervals of at most 245 days;
* the de-duplication of timestamps (sort_index followed by
  index.duplicated(keep="first"));
* the feature engineering (pct_change of Close, (High-Low)/Close,
  pct_change of Volume) and the subsequent dropna over the three feature
  columns;
* the hand-off of the observation matrix to GaussianHMM.fit (the script
  performs no row-count guard before fitting);
* the GaussianHMM construction arguments;
* the per-regime summary table (groupby("state")["return"]
  .agg(mean, std, count).sort_values("Mean_Return", ascending=False)).

Exact arithmetic is modelled in ℚ.  A float value that pandas would turn
into NaN or ±inf (no predecessor row for pct_change, or a division by
zero) is modelled as `none : Option ℚ`; the script replaces ±inf by NaN
and then drops every row containing a NaN in one of the three feature
columns, so none-ness is exactly the condition for a row to be dropped.
Times (datetime values) are modelled as integers counting microseconds,
the resolution of Python's datetime.
-/

namespace RegimeDetection

/-! ## Download chunking (script section 1) -/

/-- Microseconds in one day; `timedelta(days = n)` is `n * usDay`. -/
def usDay : ℤ := 86400000000

/-- Model of `chunk_size = timedelta(days=245)` from the script. -/
def chunk_size : ℤ := 245 * usDay

/-- Fuel-indexed model of the script's chunking loop

    t = start_date
    while t < end_date:
        t_end = min(t + chunk_size, end_date)
        boundaries.append((t, t_end))
        t = t_end

Each iteration advances `t` by at least one microsecond (in fact by
`min chunk_size (e - t) ≥ 1` whenever `t < e`), so `(e - t).toNat` units
of fuel always suffice; `boundariesAux_fuel` below proves the fuel bound
irrelevant, which is the termination argument for the loop. -/
def boundariesAux : ℕ → ℤ → ℤ → List (ℤ × ℤ)
  | 0, _, _ => []
  | n + 1, t, e =>
    if t < e then (t, min (t + chunk_size) e) :: boundariesAux n (min (t + chunk_size) e) e
    else []

/-- The boundary list produced by the chunking loop for `start_date = s`,
`end_date = e`. -/
def boundaries (s e : ℤ) : List (ℤ × ℤ) := boundariesAux (e - s).toNat s e

/-- Boolean check that a chunk is a nonempty interval of length at most
`chunk_size` (245 days). -/
def chunkWithin (p : ℤ × ℤ) : Bool :=
  decide (p.1 < p.2) && decide (p.2 - p.1 ≤ chunk_size)

/-! ## Bars and timestamp de-duplication (script section 1, after concat) -/

/-- One OHLCV bar of the downloaded frame; `ts` is the index timestamp in
microseconds.  The Open column is unused by the feature engineering but
kept for completeness (`openPrice`, since `open` is a Lean keyword). -/
structure Bar where
  ts : ℤ
  openPrice : ℚ
  high : ℚ
  low : ℚ
  close : ℚ
  volume : ℚ
deriving DecidableEq, Repr

/-- Comparison of bars by timestamp, the order used by `sort_index()`. -/
def tsLE (a b : Bar) : Prop := a.ts ≤ b.ts

instance : DecidableRel tsLE := fun a b => inferInstanceAs (Decidable (a.ts ≤ b.ts))

instance : IsTotal Bar tsLE := ⟨fun a b => le_total a.ts b.ts⟩

instance : IsTrans Bar tsLE := ⟨fun _ _ _ hab hbc => le_trans hab hbc⟩

/-- Model of `pd.concat(frames).sort_index()`: sort the bars by
timestamp (with a stable sort). -/
def sortBars (bars : List Bar) : List Bar := List.insertionSort tsLE bars

/-- Model of `data[~data.index.duplicated(keep="first")]`: walk the frame
in order and keep a row only when its timestamp has not been seen
before. -/
def dedupKeepFirst : List ℤ → List Bar → List Bar
  | _, [] => []
  | seen, b :: rest =>
    if b.ts ∈ seen then dedupKeepFirst seen rest
    else b :: dedupKeepFirst (b.ts :: seen) rest

/-- The frame handed to the feature engineering:
`data = pd.concat(frames).sort_index(); data = data[~data.index.duplicated(keep="first")]`. -/
def cleanBars (bars : List Bar) : List Bar := dedupKeepFirst [] (sortBars bars)

/-! ## Feature engineering (script section 2) -/

/-- One row of the frame after feature engineering: the bar plus the
three derived columns `return`, `range`, `vol_change` (the first is named
`ret` since `return` is a Lean keyword).  `none` stands for NaN/±inf. -/
structure FeatRow where
  bar : Bar
  ret : Option ℚ
  range : Option ℚ
  vol_change : Option ℚ
deriving DecidableEq, Repr

/-- Feature computation for one bar `b` with optional predecessor `p`:

    data["return"]     = data["Close"].pct_change()
    data["range"]      = (data["High"] - data["Low"]) / data["Close"]
    data["vol_change"] = data["Volume"].pct_change()

`pct_change` is NaN on the first row (no predecessor) and ±inf/NaN when
the predecessor value is 0; the range column is ±inf/NaN when Close is 0.
All of these become `none`. -/
def featRow (p : Option Bar) (b : Bar) : FeatRow :=
  { bar := b
    ret :=
      match p with
      | none => none
      | some q => if q.close = 0 then none else some (b.close / q.close - 1)
    range := if b.close = 0 then none else some ((b.high - b.low) / b.close)
    vol_change :=
      match p with
      | none => none
      | some q => if q.volume = 0 then none else some (b.volume / q.volume - 1) }

/-- Compute feature rows for a list of bars, threading the predecessor
bar (initially `p`, i.e. `none` for the head of the frame). -/
def withPrev : List Bar → Option Bar → List FeatRow
  | [], _ => []
  | b :: rest, p => featRow p b :: withPrev rest (some b)

/-- The frame with the three feature columns, before dropna. -/
def buildFeatures (bars : List Bar) : List FeatRow := withPrev bars none

/-- Model of
`data.replace([np.inf, -np.inf], np.nan, inplace=True);
data.dropna(subset=["return", "range", "vol_change"], inplace=True)`:
keep exactly the rows whose three features are all finite. -/
def dropna (rows : List FeatRow) : List FeatRow :=
  rows.filter fun r => r.ret.isSome && r.range.isSome && r.vol_change.isSome

/-- The ObservationMatrix: the usable feature rows of the cleaned frame
(`X = data[features].values` keeps one row per surviving frame row). -/
def observationRows (bars : List Bar) : List FeatRow := dropna (buildFeatures bars)

/-! ## GaussianHMM configuration and the fit call (script section 3) -/

/-- Constructor arguments of `hmmlearn.hmm.GaussianHMM` used by the
script. -/
structure GaussianHMMConfig where
  n_components : ℕ
  covariance_type : String
  n_iter : ℕ
  random_state : ℕ
deriving DecidableEq, Repr

/-- The literal configuration of the script:
`GaussianHMM(n_components=7, covariance_type="full", n_iter=1000, random_state=42)`. -/
def model : GaussianHMMConfig :=
  { n_components := 7, covariance_type := "full", n_iter := 1000, random_state := 42 }

/-- Error taxonomy of the spec that is relevant to the pipeline's
hand-off to training. -/
inductive PipelineError where
  | insufficientData
deriving DecidableEq, Repr

/-- Hand-off of the observation matrix to training, as the script does
it: `model.fit(X)` is called unconditionally on whatever rows survived
dropna — the script contains no row-count guard and no
InsufficientDataError, so the hand-off always succeeds with the full
observation matrix. -/
def pipelineFit (bars : List Bar) : Except PipelineError (List FeatRow) :=
  Except.ok (observationRows bars)

/-- Minimum usable-row threshold named by the spec ("fewer than, e.g.,
50 usable rows"). -/
def min_rows : ℕ := 50

/-- Spec-side hand-off, written from the spec's words for comparison
with `pipelineFit` (refinement claim): "Fails with InsufficientDataError
if fewer than, e.g., 50 usable rows remain ... and performs no partial
training." -/
def pipelineFitSpec (bars : List Bar) : Except PipelineError (List FeatRow) :=
  if (observationRows bars).length < min_rows then Except.error PipelineError.insufficientData
  else Except.ok (observationRows bars)

/-! ## Regime summary (script section 5)

    summary = (
        data.groupby("state")["return"]
        .agg(Mean_Return="mean", Volatility="std", Count="count")
        .sort_values("Mean_Return", ascending=False)
    )

The decoded frame is modelled as a list of (state, return) pairs, one per
observation row in order.  pandas `groupby` creates one group per label
that actually occurs, with the group keys sorted ascending; `mean` is the
arithmetic mean, `std` the sample standard deviation (ddof = 1, NaN for a
single-element group), `count` the group size.  The standard deviation is
carried as its square `var_return` (a computable rational, `none` for the
NaN case); pandas' Volatility column is its square root, which plays no
role in the ordering. -/

/-- Returns of the observations assigned to state `k`. -/
def groupRets (rows : List (ℕ × ℚ)) (k : ℕ) : List ℚ :=
  (rows.filter fun x => x.1 == k).map Prod.snd

/-- Arithmetic mean of a list of rationals (pandas `mean`). -/
def listMean (l : List ℚ) : ℚ := l.sum / (l.length : ℚ)

/-- Sample variance with ddof = 1 (the square of pandas `std`); `none`
models the NaN that pandas produces for a single-element group. -/
def sampleVar (l : List ℚ) : Option ℚ :=
  if l.length ≤ 1 then none
  else some (((l.map fun x => (x - listMean l) ^ 2).sum) / ((l.length : ℚ) - 1))

/-- One row of the summary table. -/
structure SummaryRow where
  state : ℕ
  mean_return : ℚ
  var_return : Option ℚ
  count : ℕ
deriving DecidableEq, Repr

/-- The aggregated row of one groupby group. -/
def mkEntry (rows : List (ℕ × ℚ)) (k : ℕ) : SummaryRow :=
  { state := k
    mean_return := listMean (groupRets rows k)
    var_return := sampleVar (groupRets rows k)
    count := (groupRets rows k).length }

/-- Descending order on mean return, the order of
`sort_values("Mean_Return", ascending=False)`. -/
def byMeanDesc (a b : SummaryRow) : Prop := b.mean_return ≤ a.mean_return

instance : DecidableRel byMeanDesc :=
  fun a b => inferInstanceAs (Decidable (b.mean_return ≤ a.mean_return))

instance : IsTotal SummaryRow byMeanDesc := ⟨fun a b => le_total b.mean_return a.mean_return⟩

instance : IsTrans SummaryRow byMeanDesc := ⟨fun _ _ _ hab hbc => le_trans hbc hab⟩

/-- The group keys of `groupby("state")`: the distinct labels that occur,
sorted ascending. -/
def sortedKeys (rows : List (ℕ × ℚ)) : List ℕ :=
  List.insertionSort (fun a b => a ≤ b) (rows.map Prod.fst).dedup

/-- The summary table: one aggregated row per occurring state label,
sorted by descending mean return. -/
def regimeSummary (rows : List (ℕ × ℚ)) : List SummaryRow :=
  List.insertionSort byMeanDesc ((sortedKeys rows).map (mkEntry rows))

/-! ## Concrete inputs used by witnesses and counterexamples -/

/-- A bar with the given close and volume; high = low = close, so the
range feature is 0 and the bar survives dropna whenever its predecessor
exists and has nonzero close and volume. -/
def mkBar (t : ℤ) (c v : ℚ) : Bar :=
  { ts := t, openPrice := c, high := c, low := c, close := c, volume := v }

/-- The three-bar example of the spec: closes [100, 110, 99] and volumes
[10, 20, 15]. -/
def exBars : List Bar := [mkBar 0 100 10, mkBar 1 110 20, mkBar 2 99 15]

/-- A decoded frame whose per-state mean returns are
{0 ↦ -0.01, 1 ↦ 0.02, 2 ↦ 0}. -/
def exRows : List (ℕ × ℚ) := [(0, -(1 / 100)), (1, 1 / 50), (2, 0)]

/-- A decoded frame in which only states 0 and 1 occur. -/
def exRowsTwo : List (ℕ × ℚ) := [(0, 1), (1, 2)]

/-- An out-of-order download with a duplicate timestamp: two distinct
bars share timestamp 1. -/
def exBarsDup : List Bar := [mkBar 1 110 20, mkBar 0 100 10, mkBar 1 115 25]

end RegimeDetection

namespace RegimeDetection

/-! ## Evaluation lemmas on the concrete inputs -/

/-- Evaluating the feature pipeline on the spec's three-bar example: row
0 is dropped and the two surviving rows carry returns 1/10 and -1/10 and
volume changes 1 and -1/4. -/
theorem observationRows_exBars_eval :
    observationRows exBars =
      [{ bar := mkBar 1 110 20, ret := some (1 / 10), range := some 0,
         vol_change := some 1 },
       { bar := mkBar 2 99 15, ret := some (-(1 / 10)), range := some 0,
         vol_change := some (-(1 / 4)) }] := by
  norm_num [observationRows, dropna, buildFeatures, withPrev, featRow, exBars, mkBar]

/-! ## C8 — trainer configuration -/

/-- C8: the trainer is configured with the documented defaults, K = 7
hidden states, full covariance form, and an EM iteration ceiling of
1000 (and, incidentally, random_state 42). -/
theorem c8_trainer_defaults :
    model.n_components = 7 ∧ model.covariance_type = "full" ∧ model.n_iter = 1000 :=
  ⟨rfl, rfl, rfl⟩

/-! ## C1 — no minimum-row guard before fitting -/

/-- C1, counterexample to the claim as stated: on the three-bar example
only 2 < 50 usable rows remain, yet the pipeline does not fail with
InsufficientDataError — the script has no row-count guard. -/
theorem c1_counterexample :
    (observationRows exBars).length < min_rows ∧
    pipelineFit exBars ≠ Except.error PipelineError.insufficientData := by
  rw [observationRows_exBars_eval]
  exact ⟨by norm_num [min_rows], by simp [pipelineFit]⟩

/-- C1 (amended): when fewer than the minimum row threshold of usable
rows remain, the pipeline performs no check at all: training is invoked
on the observation matrix unconditionally (the hand-off succeeds with
every surviving row), whereas the spec-side hand-off would fail with
InsufficientDataError. -/
theorem c1_fit_unconditional (bars : List Bar)
    (h : (observationRows bars).length < min_rows) :
    pipelineFit bars = Except.ok (observationRows bars) ∧
    pipelineFitSpec bars = Except.error PipelineError.insufficientData :=
  ⟨rfl, by rw [pipelineFitSpec, if_pos h]⟩

/-- C1, witness: the amended theorem applied to the three-bar example. -/
theorem c1_fit_unconditional_witness :
    (observationRows exBars).length < min_rows ∧
    pipelineFit exBars = Except.ok (observationRows exBars) ∧
    pipelineFitSpec exBars = Except.error PipelineError.insufficientData := by
  have h : (observationRows exBars).length < min_rows := by
    rw [observationRows_exBars_eval]; norm_num [min_rows]
  exact ⟨h, (c1_fit_unconditional exBars h).1, (c1_fit_unconditional exBars h).2⟩

/-! ## C4 — dropna leaves only finite rows and drops the first bar -/

/-- C4: every row surviving the FeatureBuilder has all three features
finite (`isSome`), and the first input bar never contributes a row: on a
frame `b :: rest` the observation matrix is exactly the filtered feature
rows of `rest` (the head's feature row is always dropped, its return
having no predecessor). -/
theorem c4_dropna_finite (bars : List Bar) :
    ((observationRows bars).all fun r =>
      r.ret.isSome && r.range.isSome && r.vol_change.isSome) = true ∧
    ∀ b rest, bars = b :: rest → observationRows bars = dropna (withPrev rest (some b)) := by
  constructor
  · rw [List.all_eq_true]
    intro r hr
    rw [observationRows, dropna] at hr
    exact (List.mem_filter.mp hr).2
  · intro b rest h
    subst h
    show dropna (featRow none b :: withPrev rest (some b)) = _
    rw [dropna, List.filter_cons_of_neg, dropna]
    simp [featRow]

/-- C4, witness: the theorem applied to the three-bar example. -/
theorem c4_dropna_finite_witness :
    ((observationRows exBars).all fun r =>
      r.ret.isSome && r.range.isSome && r.vol_change.isSome) = true ∧
    observationRows exBars =
      dropna (withPrev [mkBar 1 110 20, mkBar 2 99 15] (some (mkBar 0 100 10))) :=
  ⟨(c4_dropna_finite exBars).1,
   (c4_dropna_finite exBars).2 (mkBar 0 100 10) [mkBar 1 110 20, mkBar 2 99 15] rfl⟩

/-! ## C3 — the feature formulas -/

/-- Head of `withPrev`: the first feature row is built from the head bar
with predecessor `p`. -/
theorem withPrev_getElem?_zero (l : List Bar) (p : Option Bar) :
    (withPrev l p)[0]? = l[0]?.map (featRow p) := by
  cases l <;> simp [withPrev]

/-- Successor positions of `withPrev`: row `i + 1` is built from bar
`i + 1` with bar `i` as predecessor. -/
theorem withPrev_getElem?_succ (l : List Bar) (p : Option Bar) (i : ℕ) :
    (withPrev l p)[i + 1]? =
      l[i]?.bind fun q => l[i + 1]?.map fun b => featRow (some q) b := by
  induction l generalizing p i with
  | nil => simp [withPrev]
  | cons b rest ih =>
    cases i with
    | zero => simp [withPrev, withPrev_getElem?_zero]
    | succ j => simpa [withPrev] using ih (some b) j

/-- C3: for every bar index with a predecessor, the FeatureBuilder
computes return = close_t / close_pred − 1, range = (high − low) / close
and vol_change = volume_t / volume_pred − 1 (each `none` exactly when its
denominator is zero, the float case NaN/±inf). -/
theorem c3_feature_formulas (bars : List Bar) (i : ℕ) (p b : Bar)
    (hp : bars[i]? = some p) (hb : bars[i + 1]? = some b) :
    (buildFeatures bars)[i + 1]? = some
      { bar := b
        ret := if p.close = 0 then none else some (b.close / p.close - 1)
        range := if b.close = 0 then none else some ((b.high - b.low) / b.close)
        vol_change := if p.volume = 0 then none else some (b.volume / p.volume - 1) } := by
  rw [buildFeatures, withPrev_getElem?_succ, hp, hb]
  rfl

/-- C3, witness: on the example bars with closes [100, 110, 99] and
volumes [10, 20, 15], row 1 has return 1/10 and vol_change 1, and the
two surviving rows have returns [1/10, −1/10] and volume changes
[1, −1/4]. -/
theorem c3_feature_formulas_witness :
    (buildFeatures exBars)[1]? = some
      { bar := mkBar 1 110 20, ret := some (1 / 10), range := some 0,
        vol_change := some 1 } ∧
    (observationRows exBars).map FeatRow.ret = [some (1 / 10), some (-(1 / 10))] ∧
    (observationRows exBars).map FeatRow.vol_change = [some 1, some (-(1 / 4))] := by
  refine ⟨?_, ?_, ?_⟩
  · have h := c3_feature_formulas exBars 0 (mkBar 0 100 10) (mkBar 1 110 20) rfl rfl
    rw [h]
    norm_num [mkBar]
  · rw [observationRows_exBars_eval]
    rfl
  · rw [observationRows_exBars_eval]
    rfl

/-! ## C2 — states absent from the decoded path are omitted -/

/-- C2, counterexample to the claim as stated: the model has K = 7
states, yet on a decoded path in which only states 0 and 1 occur the
summary has no entry for state 2 — pandas groupby creates groups only
for labels that occur, so empty states are omitted, not reported with an
empty count. -/
theorem c2_counterexample :
    2 < model.n_components ∧
    (2 : ℕ) ∉ (regimeSummary exRowsTwo).map SummaryRow.state := by
  have h1 : sortedKeys exRowsTwo = [0, 1] := by decide
  constructor
  · norm_num [model]
  · rw [regimeSummary, h1]
    norm_num [mkEntry, groupRets, listMean, sampleVar, exRowsTwo, byMeanDesc,
      List.insertionSort, List.orderedInsert]

/-- C2 (amended): the RegimeSummary contains an entry exactly for the
state labels that occur in the decoded path; a state with zero assigned
observations is omitted from the summary rather than reported with an
empty-count entry. -/
theorem c2_only_present_states (rows : List (ℕ × ℚ)) (k : ℕ) :
    k ∈ (regimeSummary rows).map SummaryRow.state ↔ k ∈ rows.map Prod.fst := by
  rw [regimeSummary,
    ((List.perm_insertionSort byMeanDesc _).map SummaryRow.state).mem_iff,
    List.map_map]
  have h : (SummaryRow.state ∘ mkEntry rows) = id := rfl
  rw [h, List.map_id, sortedKeys, (List.perm_insertionSort _ _).mem_iff, List.mem_dedup]

/-! ## C5 — per-state aggregation, ordered by descending mean return -/

/-- C5: the RegimeSummary is sorted by descending mean return, and every
state label occurring in the decoded path has its aggregated row in the
summary: the mean, sample variance (the square of pandas' std column,
`none` for the single-observation NaN case) and count of the return
feature over the observations assigned to that label. -/
theorem c5_summary_sorted (rows : List (ℕ × ℚ)) :
    List.Sorted byMeanDesc (regimeSummary rows) ∧
    ∀ k, k ∈ rows.map Prod.fst → mkEntry rows k ∈ regimeSummary rows := by
  constructor
  · exact List.sorted_insertionSort byMeanDesc _
  · intro k hk
    have hk' : k ∈ sortedKeys rows := by
      rw [sortedKeys, (List.perm_insertionSort _ _).mem_iff, List.mem_dedup]
      exact hk
    rw [regimeSummary, (List.perm_insertionSort _ _).mem_iff]
    exact List.mem_map_of_mem _ hk'

/-- Evaluating the summary on the decoded frame with per-state mean
returns 0 ↦ -0.01, 1 ↦ 0.02, 2 ↦ 0: the entries come out in state order
[1, 2, 0]. -/
theorem regimeSummary_exRows_states :
    (regimeSummary exRows).map SummaryRow.state = [1, 2, 0] := by
  have h1 : sortedKeys exRows = [0, 1, 2] := by decide
  rw [regimeSummary, h1]
  norm_num [mkEntry, groupRets, listMean, sampleVar, exRows, byMeanDesc,
    List.insertionSort, List.orderedInsert]

/-- C5, witness: the theorem applied to the example frame, together with
the evaluated entry order [1, 2, 0]. -/
theorem c5_summary_sorted_witness :
    List.Sorted byMeanDesc (regimeSummary exRows) ∧
    (1 : ℕ) ∈ exRows.map Prod.fst ∧
    mkEntry exRows 1 ∈ regimeSummary exRows ∧
    (regimeSummary exRows).map SummaryRow.state = [1, 2, 0] := by
  refine ⟨(c5_summary_sorted exRows).1, ?_, ?_, regimeSummary_exRows_states⟩
  · simp [exRows]
  · exact (c5_summary_sorted exRows).2 1 (by simp [exRows])

/-! ## C7 — timestamp de-duplication yields strictly increasing bars -/

/-- The de-duplication pass only removes rows. -/
theorem dedupKeepFirst_sublist (seen : List ℤ) (l : List Bar) :
    List.Sublist (dedupKeepFirst seen l) l := by
  induction l generalizing seen with
  | nil => simp [dedupKeepFirst]
  | cons b rest ih =>
    rw [dedupKeepFirst]
    by_cases h : b.ts ∈ seen
    · rw [if_pos h]
      exact (ih seen).cons b
    · rw [if_neg h]
      exact (ih _).cons₂ b

/-- No kept row has a timestamp from the already-seen set. -/
theorem dedupKeepFirst_not_seen (seen : List ℤ) (l : List Bar) :
    ∀ b ∈ dedupKeepFirst seen l, b.ts ∉ seen := by
  induction l generalizing seen with
  | nil => simp [dedupKeepFirst]
  | cons a rest ih =>
    rw [dedupKeepFirst]
    by_cases h : a.ts ∈ seen
    · rw [if_pos h]
      exact ih seen
    · rw [if_neg h]
      intro b hb
      rcases List.mem_cons.mp hb with rfl | hb'
      · exact h
      · have h2 := ih (a.ts :: seen) b hb'
        exact fun hs => h2 (List.mem_cons_of_mem _ hs)

/-- The kept rows have pairwise distinct timestamps. -/
theorem dedupKeepFirst_distinct (seen : List ℤ) (l : List Bar) :
    List.Pairwise (fun a b => a.ts ≠ b.ts) (dedupKeepFirst seen l) := by
  induction l generalizing seen with
  | nil => simp [dedupKeepFirst]
  | cons a rest ih =>
    rw [dedupKeepFirst]
    by_cases h : a.ts ∈ seen
    · rw [if_pos h]
      exact ih seen
    · rw [if_neg h]
      refine List.Pairwise.cons ?_ (ih _)
      intro b hb
      have h2 := dedupKeepFirst_not_seen (a.ts :: seen) rest b hb
      exact fun he => h2 (List.mem_cons.mpr (Or.inl he.symm))

/-- Every timestamp of the input survives: either it was already seen or
some kept row carries it. -/
theorem dedupKeepFirst_covers (seen : List ℤ) (l : List Bar) :
    ∀ b ∈ l, b.ts ∈ seen ∨ b.ts ∈ (dedupKeepFirst seen l).map Bar.ts := by
  induction l generalizing seen with
  | nil => simp
  | cons a rest ih =>
    intro b hb
    rw [dedupKeepFirst]
    by_cases h : a.ts ∈ seen
    · rw [if_pos h]
      rcases List.mem_cons.mp hb with rfl | hb'
      · exact Or.inl h
      · exact ih seen b hb'
    · rw [if_neg h]
      rcases List.mem_cons.mp hb with rfl | hb'
      · exact Or.inr (by simp)
      · rcases ih (a.ts :: seen) b hb' with hs | hm
        · rcases List.mem_cons.mp hs with he | hs'
          · exact Or.inr (by simp [he])
          · exact Or.inl hs'
        · exact Or.inr (List.mem_cons_of_mem _ hm)

/-- C7: after sorting by timestamp and removing duplicate-timestamp rows
(keeping the first occurrence), the bar sequence handed to the
FeatureBuilder has strictly increasing timestamps, and every input bar's
timestamp is still represented by some kept bar. -/
theorem c7_strictly_increasing (bars : List Bar) :
    List.Pairwise (fun a b => a.ts < b.ts) (cleanBars bars) ∧
    ∀ b ∈ bars, b.ts ∈ (cleanBars bars).map Bar.ts := by
  constructor
  · have hs : List.Pairwise tsLE (sortBars bars) := List.sorted_insertionSort tsLE bars
    have hle : List.Pairwise tsLE (cleanBars bars) :=
      hs.sublist (dedupKeepFirst_sublist [] (sortBars bars))
    have hne : List.Pairwise (fun a b => a.ts ≠ b.ts) (cleanBars bars) :=
      dedupKeepFirst_distinct [] (sortBars bars)
    exact (hle.and hne).imp fun h => lt_of_le_of_ne h.1 h.2
  · intro b hb
    have hb' : b ∈ sortBars bars := (List.perm_insertionSort tsLE bars).mem_iff.mpr hb
    rcases dedupKeepFirst_covers [] (sortBars bars) b hb' with hs | hm
    · exact absurd hs (List.not_mem_nil _)
    · exact hm

/-- C7, witness: on an out-of-order download with two bars sharing
timestamp 1, the cleaned frame is strictly increasing and the dropped
duplicate's timestamp is still represented. -/
theorem c7_strictly_increasing_witness :
    List.Pairwise (fun a b => a.ts < b.ts) (cleanBars exBarsDup) ∧
    (mkBar 1 115 25).ts ∈ (cleanBars exBarsDup).map Bar.ts :=
  ⟨(c7_strictly_increasing exBarsDup).1,
   (c7_strictly_increasing exBarsDup).2 (mkBar 1 115 25) (by simp [exBarsDup])⟩

/-! ## C10 — the download-chunking loop -/

/-- Once `t` has reached `e` the loop body never runs, whatever the
fuel. -/
theorem boundariesAux_stop (n : ℕ) (t e : ℤ) (h : ¬ t < e) : boundariesAux n t e = [] := by
  cases n with
  | zero => rfl
  | succ k => rw [boundariesAux, if_neg h]

/-- The chunk size (245 days) is positive, so the loop makes progress. -/
theorem chunk_size_pos : (0 : ℤ) < chunk_size := by
  norm_num [chunk_size, usDay]

/-- Partition properties of the chunking loop, by induction on the fuel:
for `t < e` the produced list is nonempty, starts at `t`, ends exactly at
`e`, is consecutive (each chunk starts where the previous one ended) and
every chunk is a nonempty interval of length at most `chunk_size`. -/
theorem boundariesAux_spec (n : ℕ) :
    ∀ t e : ℤ, t < e → (e - t).toNat ≤ n →
      boundariesAux n t e ≠ [] ∧
      (boundariesAux n t e).head?.map Prod.fst = some t ∧
      (boundariesAux n t e).getLast?.map Prod.snd = some e ∧
      List.Chain' (fun p q => p.2 = q.1) (boundariesAux n t e) ∧
      (boundariesAux n t e).all chunkWithin = true := by
  induction n with
  | zero =>
    intro t e ht hf
    exact absurd hf (by omega)
  | succ n ih =>
    intro t e ht hf
    rw [boundariesAux, if_pos ht]
    have hcs := chunk_size_pos
    by_cases hm : e ≤ t + chunk_size
    · have hmin : min (t + chunk_size) e = e := min_eq_right hm
      rw [hmin, boundariesAux_stop n e e (lt_irrefl e)]
      refine ⟨by simp, by simp, by simp, by simp, ?_⟩
      simp [chunkWithin]
      exact ⟨ht, by omega⟩
    · push_neg at hm
      have hmin : min (t + chunk_size) e = t + chunk_size := min_eq_left (le_of_lt hm)
      rw [hmin]
      have hf2 : (e - (t + chunk_size)).toNat ≤ n := by omega
      obtain ⟨hne, hhead, hlast, hchain, hall⟩ := ih (t + chunk_size) e hm hf2
      obtain ⟨q, tl, htl⟩ := List.exists_cons_of_ne_nil hne
      refine ⟨by simp, by simp, ?_, ?_, ?_⟩
      · rw [htl] at hlast ⊢
        rw [List.getLast?_cons_cons]
        exact hlast
      · rw [htl] at hchain hhead ⊢
        have hq : q.1 = t + chunk_size := by
          simp at hhead
          exact hhead
        exact List.Chain'.cons hq.symm hchain
      · rw [htl] at hall ⊢
        simp only [List.all_cons] at hall ⊢
        rw [hall]
        simp [chunkWithin]
        omega

/-- The loop's result does not depend on the fuel, provided the fuel is
at least `(e - t).toNat`: this is the termination argument — the loop
exits after at most that many iterations. -/
theorem boundariesAux_congr (n : ℕ) :
    ∀ (m : ℕ) (t e : ℤ), (e - t).toNat ≤ n → (e - t).toNat ≤ m →
      boundariesAux n t e = boundariesAux m t e := by
  induction n with
  | zero =>
    intro m t e hn _
    have ht : ¬ t < e := by omega
    rw [boundariesAux_stop 0 t e ht, boundariesAux_stop m t e ht]
  | succ n ih =>
    intro m t e hn hm
    by_cases ht : t < e
    · cases m with
      | zero => exact absurd hm (by omega)
      | succ m' =>
        rw [boundariesAux, boundariesAux, if_pos ht, if_pos ht]
        have hcs := chunk_size_pos
        by_cases he : e ≤ t + chunk_size
        · have hmin : min (t + chunk_size) e = e := min_eq_right he
          rw [hmin, boundariesAux_stop n e e (lt_irrefl e),
            boundariesAux_stop m' e e (lt_irrefl e)]
        · push_neg at he
          have hmin : min (t + chunk_size) e = t + chunk_size := min_eq_left (le_of_lt he)
          rw [hmin]
          congr 1
          exact ih m' (t + chunk_size) e (by omega) (by omega)
    · rw [boundariesAux_stop _ t e ht, boundariesAux_stop m t e ht]

/-- C10: for every `s < e` the chunking loop terminates (its result is
already reached with `(e - s).toNat` fuel and is stable under any larger
fuel) and produces a nonempty boundary list that partitions `[s, e]`:
it starts at `s`, ends exactly at `e`, each chunk's start equals the
previous chunk's end, and every chunk is a nonempty interval of at most
245 days. -/
theorem c10_chunking (s e : ℤ) (h : s < e) :
    boundaries s e ≠ [] ∧
    (boundaries s e).head?.map Prod.fst = some s ∧
    (boundaries s e).getLast?.map Prod.snd = some e ∧
    List.Chain' (fun p q => p.2 = q.1) (boundaries s e) ∧
    (boundaries s e).all chunkWithin = true ∧
    ∀ n, (e - s).toNat ≤ n → boundariesAux n s e = boundaries s e := by
  obtain ⟨h1, h2, h3, h4, h5⟩ := boundariesAux_spec (e - s).toNat s e h le_rfl
  exact ⟨h1, h2, h3, h4, h5, fun n hn => boundariesAux_congr n (e - s).toNat s e hn le_rfl⟩

/-- C10, witness: the theorem applied to the script's actual range, 729
days, which splits into three chunks of 245, 245 and 239 days. -/
theorem c10_chunking_witness :
    ((0 : ℤ) < 729 * usDay) ∧
    boundaries 0 (729 * usDay) ≠ [] ∧
    (boundaries 0 (729 * usDay)).head?.map Prod.fst = some 0 ∧
    (boundaries 0 (729 * usDay)).getLast?.map Prod.snd = some (729 * usDay) ∧
    List.Chain' (fun p q => p.2 = q.1) (boundaries 0 (729 * usDay)) ∧
    (boundaries 0 (729 * usDay)).all chunkWithin = true ∧
    boundariesAux ((729 * usDay).toNat) 0 (729 * usDay) = boundaries 0 (729 * usDay) := by
  have h : (0 : ℤ) < 729 * usDay := by norm_num [usDay]
  obtain ⟨h1, h2, h3, h4, h5, h6⟩ := c10_chunking 0 (729 * usDay) h
  exact ⟨h, h1, h2, h3, h4, h5, h6 ((729 * usDay).toNat) (by omega)⟩

end RegimeDetection
